import Mathlib

/-!
Verification of the MTProto transport core (`ll_mtproto/network/mtproto.py`):
the message-id clock, outbound padding and `msg_key` derivation, the encrypted
read path with its replay window, and the `AuthKey` object.

Byte strings are modelled as `List Nat` (each element intended `< 256`).
External primitives that live outside this file's sources (SHA1, SHA256, the
AES-IGE cipher of `encryption.py`, `os.urandom`) are taken as function
parameters; the TL serialization layout is modelled from the spec where noted.
-/

namespace MtprotoSpec

/-- Byte strings as lists of naturals. -/
abbrev Bytes := List Nat

/-- Little-endian encoding of `n` into `w` bytes
(Python `int.to_bytes(w, "little")`, reduced modulo `2 ^ (8 * w)`). -/
def toLE (w n : Nat) : Bytes :=
  (List.range w).map fun i => n / 256 ^ i % 256

/-- Signed 64-bit little-endian encoding: the two's-complement residue. -/
def i64le (s : Int) : Bytes := toLE 8 (s % 2 ^ 64).toNat

/-- Value of a little-endian byte string (Python `int.from_bytes(b, "little")`). -/
def fromLE (b : Bytes) : Nat := b.foldr (fun x acc => x + 256 * acc) 0

/-- Value assembled from a list of random bits, most significant first.
The set of results of `secrets.randbits(k)` is the image of this function
over all inputs of length `k`. -/
def randbits (bits : List Bool) : Nat :=
  bits.foldl (fun a b => 2 * a + cond b 1 0) 0

/-- `MTProto._get_message_id` (mtproto.py lines 138-145).
`t` stands for `int(time.time() * 2 ** 30)` and `r` for `secrets.randbits(12)`;
`last` is the stored `self._last_message_id`.  Returns the generated
`message_id` together with the new value of `self._last_message_id`. -/
def getMessageId (t r last : Nat) : Nat × Nat :=
  let m := (t ||| r) * 4
  if m ≤ last then (last + 4, last + 4) else (m, m)

/-- Length of the padding generated by `MTProto.write` (mtproto.py line 404):
`os.urandom(-(len(message_inner_data) + 12) % 16 + 12)`.  Python `%` with a
positive modulus agrees with `Int.emod`. -/
def paddingLen (n : Nat) : Nat := ((-(n + 12 : Int)) % 16).toNat + 12

/-- `_get_auth_key_id` (mtproto.py lines 47-48): the last 8 bytes of
`sha1(auth_key)`. -/
def getAuthKeyId (sha1 : Bytes → Bytes) (k : Bytes) : Bytes :=
  (sha1 k).drop ((sha1 k).length - 8)

/-- The fields of an `AuthKey` object (mtproto.py lines 55-98); the
`asyncio.Lock` is not part of the data model. -/
structure AuthKeyState where
  authKey : Option Bytes
  authKeyId : Option Bytes
  sessionId : Option Nat
  serverSalt : Option Int
  seqNo : Int
deriving DecidableEq, Repr

/-- `AuthKey.__init__` (mtproto.py lines 65-78).  The stored fields are the
arguments unchanged, except `seq_no`, which is `seq_no or -1`: Python treats
both `None` and `0` as falsy, so they both become `-1`. -/
def authKeyInit (ak akid : Option Bytes) (sid : Option Nat) (salt : Option Int)
    (sq : Option Int) : AuthKeyState :=
  { authKey := ak
    authKeyId := akid
    sessionId := sid
    serverSalt := salt
    seqNo := match sq with
      | none => -1
      | some n => if n = 0 then -1 else n }

/-- `AuthKey.clone` (mtproto.py lines 80-81): a fresh `AuthKey` with the same
key material and salt, a newly generated `session_id` and a defaulted
`seq_no`. -/
def authKeyClone (s : AuthKeyState) (newSid : Nat) : AuthKeyState :=
  authKeyInit s.authKey s.authKeyId (some newSid) s.serverSalt none

/-- The mutation performed on the `AuthKey` when `_create_auth_key` succeeds
(mtproto.py lines 294-297): the key is stored, `auth_key_id` is re-derived
from it, and fresh `server_salt` / `session_id` are installed. -/
def handshakeComplete (sha1 : Bytes → Bytes) (s : AuthKeyState)
    (key : Bytes) (salt : Int) (sid : Nat) : AuthKeyState :=
  { s with
    authKey := some key
    authKeyId := some (getAuthKeyId sha1 key)
    serverSalt := some salt
    sessionId := some sid }

/-- `AuthKey.__setstate__` (mtproto.py lines 86-98).  The pickled state is
either the `(auth_key, server_salt)` pair or, in the legacy form, the raw
`auth_key` bytes (in which case `server_salt` is seeded with `saltRand`,
standing for `secrets.randbits(8)`).  `sid` stands for the fresh
`_new_session_id()`.  `auth_key_id` is re-derived only when `auth_key` is
truthy (neither `None` nor empty). -/
def authKeySetstate (sha1 : Bytes → Bytes)
    (state : (Option Bytes × Option Int) ⊕ Bytes) (sid : Nat) (saltRand : Int) :
    AuthKeyState :=
  let p := match state with
    | .inl q => q
    | .inr b => (some b, some saltRand)
  { authKey := p.1
    authKeyId := match p.1 with
      | some k => if k = [] then none else some (getAuthKeyId sha1 k)
      | none => none
    sessionId := some sid
    serverSalt := p.2
    seqNo := -1 }

/-- The consistency invariant claimed for `AuthKey`: whenever the key is set
(present and nonempty) the identifier is derived from it, and whenever the key
is absent or empty the identifier is absent. -/
def AuthKeyInv (sha1 : Bytes → Bytes) (s : AuthKeyState) : Prop :=
  (∀ k, s.authKey = some k → k ≠ [] → s.authKeyId = some (getAuthKeyId sha1 k)) ∧
  ((s.authKey = none ∨ s.authKey = some []) → s.authKeyId = none)

/-- Modelled from the spec: the TL scheme (its sources are not part of this
tree) serializes the bare `message_inner_data` constructor as
`salt: i64_le || session_id: u64_le || msg_id: u64_le || seq_no: u32_le ||
length: u32_le || TL-serialized body` (spec §3, "Plaintext body before
encryption"). -/
def innerData (salt : Int) (sessionId msgId seqNo : Nat) (body : Bytes) : Bytes :=
  i64le salt ++ toLE 8 sessionId ++ toLE 8 msgId ++ toLE 4 seqNo ++
    toLE 4 body.length ++ body

/-- The values produced while running `MTProto.write`. -/
structure WriteResult (α : Type) where
  inner : Bytes
  padding : Bytes
  msgKey : Bytes
  aes : α
  encrypted : Bytes
  frame : Bytes

/-- `MTProto.write` (mtproto.py lines 394-416).  `sha256` is the digest
function from `byteutils`; `prepareKey` and `encrypt` stand for
`encryption.prepare_key` and `AesIge.encrypt` (their sources are external to
this tree); `urandom` models `os.urandom` as a length-indexed byte source.
The emitted frame is the bare `encrypted_message`
`auth_key_id: u64_le || msg_key: 16B || ciphertext` (spec §3), where the
serialized `auth_key_id` re-encodes `int.from_bytes(auth_key_id, "little")`. -/
def write {α : Type} (sha256 : Bytes → Bytes) (prepareKey : Bytes → Bytes → Bool → α)
    (encrypt : α → Bytes → Bytes) (urandom : Nat → Bytes)
    (authKey authKeyId : Bytes) (salt : Int) (sessionId msgId seqNo : Nat)
    (body : Bytes) : WriteResult α :=
  let inner := innerData salt sessionId msgId seqNo body
  let padding := urandom (paddingLen inner.length)
  let msgKey := ((sha256 ((authKey.drop 88).take 32 ++ inner ++ padding)).drop 8).take 16
  let aes := prepareKey authKey msgKey true
  let enc := encrypt aes (inner ++ padding)
  { inner := inner, padding := padding, msgKey := msgKey, aes := aes,
    encrypted := enc, frame := toLE 8 (fromLE authKeyId) ++ msgKey ++ enc }

/-- The per-connection mutable state of `MTProto` touched by the read path:
`_last_message_id` and the replay deque `_last_msg_ids`. -/
structure ConnState where
  lastMessageId : Nat
  lastMsgIds : List Nat
deriving DecidableEq, Repr

/-- Appending to a `collections.deque(maxlen=cap)`: the element is added on
the right and the oldest elements are evicted from the left so that at most
`cap` remain. -/
def dequeAppend (cap : Nat) (l : List Nat) (x : Nat) : List Nat :=
  let ys := l ++ [x]
  ys.drop (ys.length - cap)

/-- The server sentinel `b"l\xfe\xff\xffl\xfe\xff\xff"` (mtproto.py line 328). -/
def corruptedSentinel : Bytes := [0x6c, 0xfe, 0xff, 0xff, 0x6c, 0xfe, 0xff, 0xff]

/-- The server sentinel `b"S\xfe\xff\xffS\xfe\xff\xff"` (mtproto.py line 331). -/
def floodSentinel : Bytes := [0x53, 0xfe, 0xff, 0xff, 0x53, 0xfe, 0xff, 0xff]

/-- The errors raised by `MTProto.read`, in source order. -/
inductive ReadError
  | corruptedAuth
  | flood
  | unknownAuthKeyId
  | wrongPadding
  | unknownMsgKey
  | unknownSessionId
  | evenMsgId
  | duplicated
  | clockUnsync
deriving DecidableEq, Repr

/-- An inbound encrypted frame as seen by `MTProto.read` after the
deterministic AES-IGE decryption and TL parse: the wire `auth_key_id` and
`msg_key`, the plaintext bytes consumed by the TL reader (`parsed`), the
trailing `remaining_plain_buffer` (`padBytes`), and the decoded
`session_id` / `msg_id` / `salt` fields.  One wire frame always decrypts and
parses to the same record, so resubmitting a frame resubmits the record. -/
structure InFrame where
  serverAuthKeyId : Bytes
  msgKey : Bytes
  parsed : Bytes
  padBytes : Bytes
  sessionId : Nat
  msgId : Nat
  salt : Int
deriving DecidableEq, Repr

/-- The `msg_key_computed` of the read path (mtproto.py lines 341-353):
SHA256 over `auth_key[96..128]`, then every decrypted byte consumed by the
TL reader, then the remaining plain buffer, truncated to bytes `[8..24]`. -/
def computedMsgKey (sha256 : Bytes → Bytes) (authKey : Bytes) (f : InFrame) : Bytes :=
  ((sha256 ((authKey.drop 96).take 32 ++ f.parsed ++ f.padBytes)).drop 8).take 16

/-- `MTProto.read` (mtproto.py lines 321-380), as a state transition on
`ConnState`.  The checks appear in source order; `t` and `r` are the
time / randomness inputs of the `_get_message_id()` call made by the
clock-synchronisation check (line 369).  Mutations performed before an error
is raised persist, exactly as in the source: the replay append (line 367) and
the message-id update precede the clock check, so a clock failure still
returns the mutated state, while every earlier failure leaves the state
untouched.  On success the decoded `msg_id` is returned. -/
def read (sha256 : Bytes → Bytes) (authKey authKeyId : Bytes) (sessionId : Nat)
    (st : ConnState) (f : InFrame) (t r : Nat) : ConnState × Except ReadError Nat :=
  if f.serverAuthKeyId = corruptedSentinel then (st, .error .corruptedAuth)
  else if f.serverAuthKeyId = floodSentinel then (st, .error .flood)
  else if f.serverAuthKeyId ≠ authKeyId then (st, .error .unknownAuthKeyId)
  else if ¬ (12 ≤ f.padBytes.length ∧ f.padBytes.length < 1024) then
    (st, .error .wrongPadding)
  else if f.msgKey ≠ computedMsgKey sha256 authKey f then (st, .error .unknownMsgKey)
  else if f.sessionId ≠ sessionId then (st, .error .unknownSessionId)
  else if f.msgId % 2 ≠ 1 then (st, .error .evenMsgId)
  else if f.msgId ∈ st.lastMsgIds then (st, .error .duplicated)
  else
    let w := dequeAppend 64 st.lastMsgIds f.msgId
    let g := getMessageId t r st.lastMessageId
    let st2 : ConnState := ⟨g.2, w⟩
    if ¬ (-(300 * 2 ^ 32) ≤ (f.msgId : Int) - g.1 ∧ (f.msgId : Int) - g.1 < 30 * 2 ^ 32)
    then (st2, .error .clockUnsync)
    else (st2, .ok f.msgId)

/-- `MTProto.box_message` (mtproto.py lines 382-392): generates a fresh
`msg_id` (mutating `_last_message_id`) and returns it. -/
def boxMessage (t r : Nat) (st : ConnState) : Nat × ConnState :=
  let g := getMessageId t r st.lastMessageId
  (g.1, ⟨g.2, st.lastMsgIds⟩)

/-- One read step, keeping only the state, for iterating intermediate frames. -/
def readStep (sha256 : Bytes → Bytes) (authKey authKeyId : Bytes) (sessionId : Nat)
    (s : ConnState) (fr : InFrame × Nat × Nat) : ConnState :=
  (read sha256 authKey authKeyId sessionId s fr.1 fr.2.1 fr.2.2).1

/-- The state after reading a list of frames in order. -/
def readMany (sha256 : Bytes → Bytes) (authKey authKeyId : Bytes) (sessionId : Nat)
    (st : ConnState) (frs : List (InFrame × Nat × Nat)) : ConnState :=
  frs.foldl (readStep sha256 authKey authKeyId sessionId) st

/-- A stand-in SHA256 for concrete evaluation: a constant 32-byte digest. -/
def shaC (_ : Bytes) : Bytes := List.replicate 32 0

/-- A stand-in SHA1 for concrete evaluation: a constant 20-byte digest. -/
def sha1C (_ : Bytes) : Bytes := List.replicate 20 0

/-- A stand-in key schedule with a trivial key type. -/
def prepC (_ : Bytes) (_ : Bytes) (_ : Bool) : Unit := ()

/-- A stand-in length-preserving cipher: the identity. -/
def encC (_ : Unit) (d : Bytes) : Bytes := d

/-- A stand-in `os.urandom`: `k` zero bytes. -/
def urC (k : Nat) : Bytes := List.replicate k 0

theorem getMessageId_fst_eq_snd (t r l : Nat) :
    (getMessageId t r l).1 = (getMessageId t r l).2 := by
  unfold getMessageId
  dsimp only
  split <;> rfl

theorem lt_getMessageId (t r l : Nat) : l < (getMessageId t r l).1 := by
  unfold getMessageId
  dsimp only
  split <;> omega

theorem getMessageId_mod (t r l : Nat) (h : l % 4 = 0) :
    (getMessageId t r l).1 % 4 = 0 := by
  unfold getMessageId
  dsimp only
  split <;> omega

theorem getMessageId_ge (t r l : Nat) (h : l % 4 = 0) :
    l + 4 ≤ (getMessageId t r l).1 := by
  unfold getMessageId
  dsimp only
  split <;> omega

/-- C2: successive outputs of the message-id clock.  Starting from any stored
`last` that is a multiple of 4 (the initial value is 0 and every output is a
multiple of 4), the first generated id is divisible by 4, the second exceeds
the first by at least 4, and the generator is exactly
`m = ((t | r) * 4); if m ≤ last then last + 4 else m`, storing the result. -/
theorem messageId_clock_monotonic (t₁ r₁ t₂ r₂ l : Nat) (hl : l % 4 = 0) :
    (getMessageId t₁ r₁ l).1 % 4 = 0 ∧
    (getMessageId t₁ r₁ l).1 + 4 ≤ (getMessageId t₂ r₂ (getMessageId t₁ r₁ l).2).1 ∧
    getMessageId t₁ r₁ l =
      (if (t₁ ||| r₁) * 4 ≤ l then (l + 4, l + 4)
       else ((t₁ ||| r₁) * 4, (t₁ ||| r₁) * 4)) := by
  refine ⟨getMessageId_mod _ _ _ hl, ?_, rfl⟩
  have h1 := getMessageId_mod t₁ r₁ l hl
  have h2 := getMessageId_fst_eq_snd t₁ r₁ l
  have h3 := getMessageId_ge t₂ r₂ (getMessageId t₁ r₁ l).2 (by rw [← h2]; exact h1)
  omega

/-- Witness for `messageId_clock_monotonic` at `t = r = last = 0`. -/
theorem messageId_clock_monotonic_witness :
    (getMessageId 0 0 0).1 % 4 = 0 ∧
    (getMessageId 0 0 0).1 + 4 ≤ (getMessageId 0 0 (getMessageId 0 0 0).2).1 ∧
    getMessageId 0 0 0 =
      (if (0 ||| 0) * 4 ≤ 0 then (0 + 4, 0 + 4)
       else ((0 ||| 0) * 4, (0 ||| 0) * 4)) :=
  messageId_clock_monotonic 0 0 0 0 0 (by decide)

theorem innerData_length (salt : Int) (sid mid sq : Nat) (body : Bytes) :
    (innerData salt sid mid sq body).length = 32 + body.length := by
  simp [innerData, i64le, toLE]
  omega

theorem paddingLen_bounds (n : Nat) :
    12 ≤ paddingLen n ∧ paddingLen n ≤ 27 ∧ (n + paddingLen n) % 16 = 0 := by
  unfold paddingLen
  omega

/-- C3: the padding generated by `MTProto.write` has length
`(-(len(inner) + 12) mod 16) + 12` where `len(inner) = 32 + len(body)`; that
length lies in `[12, 27]` and makes the total plaintext a multiple of 16. -/
theorem write_padding_length {α : Type} (sha256 : Bytes → Bytes)
    (prepareKey : Bytes → Bytes → Bool → α) (encrypt : α → Bytes → Bytes)
    (urandom : Nat → Bytes) (hur : ∀ k, (urandom k).length = k)
    (authKey authKeyId : Bytes) (salt : Int) (sessionId msgId seqNo : Nat)
    (body : Bytes) :
    (write sha256 prepareKey encrypt urandom authKey authKeyId salt sessionId
        msgId seqNo body).padding.length = paddingLen (32 + body.length) ∧
    12 ≤ paddingLen (32 + body.length) ∧ paddingLen (32 + body.length) ≤ 27 ∧
    (32 + body.length + paddingLen (32 + body.length)) % 16 = 0 := by
  refine ⟨?_, (paddingLen_bounds _).1, (paddingLen_bounds _).2.1,
    (paddingLen_bounds _).2.2⟩
  unfold write
  dsimp only
  rw [hur, innerData_length]

/-- Witness for `write_padding_length` with stand-in primitives and a 4-byte
body. -/
theorem write_padding_length_witness :
    (write shaC prepC encC urC [] [] 0 0 0 0 [1, 2, 3, 4]).padding.length
        = paddingLen (32 + [1, 2, 3, 4].length) ∧
    12 ≤ paddingLen (32 + [1, 2, 3, 4].length) ∧
    paddingLen (32 + [1, 2, 3, 4].length) ≤ 27 ∧
    (32 + [1, 2, 3, 4].length + paddingLen (32 + [1, 2, 3, 4].length)) % 16 = 0 :=
  write_padding_length shaC prepC encC urC (fun k => List.length_replicate k 0)
    [] [] 0 0 0 0 [1, 2, 3, 4]

/-- C10: `AuthKey.__init__` evaluates `seq_no or -1`, so an explicit
`seq_no = 0` is stored as `-1`, while any nonzero `seq_no` is stored
unchanged. -/
theorem authKeyInit_seqNo (ak akid : Option Bytes) (sid : Option Nat)
    (salt : Option Int) (n : Int) (hn : n ≠ 0) :
    (authKeyInit ak akid sid salt (some 0)).seqNo = -1 ∧
    (authKeyInit ak akid sid salt (some n)).seqNo = n := by
  constructor
  · rfl
  · simp [authKeyInit, hn]

/-- Witness for `authKeyInit_seqNo` at `seq_no = 7`. -/
theorem authKeyInit_seqNo_witness :
    (authKeyInit none none none none (some 0)).seqNo = -1 ∧
    (authKeyInit none none none none (some 7)).seqNo = 7 :=
  authKeyInit_seqNo none none none none 7 (by decide)

theorem randbits_aux (bits : List Bool) : ∀ a : Nat,
    bits.foldl (fun a b => 2 * a + cond b 1 0) a < (a + 1) * 2 ^ bits.length := by
  induction bits with
  | nil =>
    intro a
    simp only [List.foldl_nil, List.length_nil, pow_zero, mul_one]
    exact Nat.lt_succ_self a
  | cons b bs ih =>
    intro a
    simp only [List.foldl_cons, List.length_cons]
    refine lt_of_lt_of_le (ih _) ?_
    have hc : cond b 1 0 ≤ 1 := by cases b <;> simp
    calc (2 * a + cond b 1 0 + 1) * 2 ^ bs.length
        ≤ ((a + 1) * 2) * 2 ^ bs.length :=
          Nat.mul_le_mul (by omega) (Nat.le_refl _)
      _ = (a + 1) * 2 ^ (bs.length + 1) := by ring

theorem randbits_lt (bits : List Bool) : randbits bits < 2 ^ bits.length := by
  have h := randbits_aux bits 0
  simpa [randbits] using h

/-- C6 counterexample: `secrets.randbits(2048)` (mtproto.py line 236) can
produce 0 — the all-zero bit string is a valid 2048-bit input — and 0
violates the claimed lower bound `2 ≤ b`. -/
theorem dh_secret_zero_possible :
    randbits (List.replicate 2048 false) = 0 ∧
    ¬ (2 ≤ randbits (List.replicate 2048 false)) := by
  have h : ∀ n : Nat, randbits (List.replicate n false) = 0 := by
    intro n
    induction n with
    | zero => rfl
    | succ k ih => simpa [randbits, List.replicate_succ] using ih
  refine ⟨h 2048, ?_⟩
  rw [h 2048]
  decide

/-- C6 amended: the secret exponent `b` drawn by `secrets.randbits(2048)`
lies in `[0, 2^2048)` — every 2048-bit input yields a value below `2^2048`,
and values below 2 (such as 0) are attainable. -/
theorem dh_secret_range (bits : List Bool) (h : bits.length = 2048) :
    randbits bits < 2 ^ 2048 := by
  have := randbits_lt bits
  rwa [h] at this

/-- Witness for `dh_secret_range` at the all-zero bit string. -/
theorem dh_secret_range_witness :
    randbits (List.replicate 2048 false) < 2 ^ 2048 :=
  dh_secret_range (List.replicate 2048 false) (List.length_replicate 2048 false)

theorem toLE_length (w n : Nat) : (toLE w n).length = w := by
  simp [toLE]

theorem slice_mid (a b c : Bytes) (ha : a.length = 8) (hb : b.length = 16) :
    ((a ++ b ++ c).drop 8).take 16 = b := by
  rw [List.append_assoc, ← ha, List.drop_left, ← hb, List.take_left]

/-- C1: `MTProto.write` derives `msg_key` as bytes `[8..24]` of the SHA256
digest of `auth_key[88..120] || inner || padding`; the AES state is derived
from `(auth_key, msg_key, from_client = true)` only afterwards (it takes the
derived `msg_key` as input), the ciphertext is the encryption of
`inner || padding` under that state, and the emitted frame carries the
derived `msg_key` at bytes `[8..24]`. -/
theorem write_msg_key {α : Type} (sha256 : Bytes → Bytes)
    (prepareKey : Bytes → Bytes → Bool → α) (encrypt : α → Bytes → Bytes)
    (urandom : Nat → Bytes) (authKey authKeyId : Bytes) (salt : Int)
    (sessionId msgId seqNo : Nat) (body : Bytes)
    (hsha : ∀ x, (sha256 x).length = 32) (w : WriteResult α)
    (hw : w = write sha256 prepareKey encrypt urandom authKey authKeyId salt
      sessionId msgId seqNo body) :
    w.msgKey =
      ((sha256 ((authKey.drop 88).take 32 ++ w.inner ++ w.padding)).drop 8).take 16 ∧
    w.aes = prepareKey authKey w.msgKey true ∧
    w.encrypted = encrypt w.aes (w.inner ++ w.padding) ∧
    w.frame = toLE 8 (fromLE authKeyId) ++ w.msgKey ++ w.encrypted ∧
    (w.frame.drop 8).take 16 = w.msgKey := by
  subst hw
  unfold write
  dsimp only
  refine ⟨by rw [List.append_assoc], rfl, rfl, rfl, ?_⟩
  refine slice_mid _ _ _ (toLE_length 8 _) ?_
  simp only [List.length_take, List.length_drop, hsha]
  omega

/-- Witness for `write_msg_key` with stand-in primitives. -/
theorem write_msg_key_witness :
    (write shaC prepC encC urC [] [] 0 0 0 0 [1]).msgKey =
      ((shaC (([].drop 88).take 32 ++ (write shaC prepC encC urC [] [] 0 0 0 0 [1]).inner
        ++ (write shaC prepC encC urC [] [] 0 0 0 0 [1]).padding)).drop 8).take 16 ∧
    (write shaC prepC encC urC [] [] 0 0 0 0 [1]).aes =
      prepC [] (write shaC prepC encC urC [] [] 0 0 0 0 [1]).msgKey true ∧
    (write shaC prepC encC urC [] [] 0 0 0 0 [1]).encrypted =
      encC (write shaC prepC encC urC [] [] 0 0 0 0 [1]).aes
        ((write shaC prepC encC urC [] [] 0 0 0 0 [1]).inner ++
          (write shaC prepC encC urC [] [] 0 0 0 0 [1]).padding) ∧
    (write shaC prepC encC urC [] [] 0 0 0 0 [1]).frame =
      toLE 8 (fromLE []) ++ (write shaC prepC encC urC [] [] 0 0 0 0 [1]).msgKey ++
        (write shaC prepC encC urC [] [] 0 0 0 0 [1]).encrypted ∧
    ((write shaC prepC encC urC [] [] 0 0 0 0 [1]).frame.drop 8).take 16 =
      (write shaC prepC encC urC [] [] 0 0 0 0 [1]).msgKey :=
  write_msg_key shaC prepC encC urC [] [] 0 0 0 0 [1] (fun _ => rfl) _ rfl

/-- C7 counterexample: for an 8-byte body the emitted frame has
`8 + 16 + 64 = 88` bytes — the padding is at least 12, so the plaintext
rounds up to 64 — while the claimed formula
`8 + 16 + ceil((32 + len(body))/16)·16` yields 72. -/
theorem frame_length_counterexample :
    (write shaC prepC encC urC [] [] 0 0 0 0 (List.replicate 8 0)).frame.length = 88 ∧
    (write shaC prepC encC urC [] [] 0 0 0 0 (List.replicate 8 0)).frame.length ≠
      8 + 16 + ((32 + (List.replicate 8 (0 : Nat)).length + 15) / 16) * 16 := by
  constructor
  · rfl
  · decide

/-- C7 amended: the emitted frame length is
`8 + 16 + ceil((32 + len(body) + 12)/16)·16` — the 8-byte key id and 16-byte
`msg_key` headers plus the padded plaintext, whose padding is at least 12
bytes (so a body whose inner frame is already 16-aligned still grows by a
full block). -/
theorem frame_length {α : Type} (sha256 : Bytes → Bytes)
    (prepareKey : Bytes → Bytes → Bool → α) (encrypt : α → Bytes → Bytes)
    (urandom : Nat → Bytes) (authKey authKeyId : Bytes) (salt : Int)
    (sessionId msgId seqNo : Nat) (body : Bytes)
    (hsha : ∀ x, (sha256 x).length = 32)
    (hur : ∀ k, (urandom k).length = k)
    (henc : ∀ a d, (encrypt a d).length = d.length) :
    (write sha256 prepareKey encrypt urandom authKey authKeyId salt sessionId
        msgId seqNo body).frame.length =
      8 + 16 + ((32 + body.length + 12 + 15) / 16) * 16 := by
  have hn := innerData_length salt sessionId msgId seqNo body
  unfold write
  dsimp only
  simp only [List.length_append, List.length_take, List.length_drop, hsha,
    henc, hur, hn, toLE_length]
  unfold paddingLen
  omega

/-- Witness for `frame_length` with stand-in primitives and a 4-byte body. -/
theorem frame_length_witness :
    (write shaC prepC encC urC [] [] 0 0 0 0 [1, 2, 3, 4]).frame.length =
      8 + 16 + ((32 + [1, 2, 3, 4].length + 12 + 15) / 16) * 16 :=
  frame_length shaC prepC encC urC [] [] 0 0 0 0 [1, 2, 3, 4]
    (fun _ => rfl) (fun k => List.length_replicate k 0) (fun _ _ => rfl)

theorem dequeAppend_length (l : List Nat) (x : Nat) :
    (dequeAppend 64 l x).length ≤ 64 := by
  simp only [dequeAppend, List.length_drop, List.length_append,
    List.length_cons, List.length_nil]
  omega

theorem dequeAppend_reverse (l : List Nat) (x : Nat) :
    (dequeAppend 64 l x).reverse = (x :: l.reverse).take 64 := by
  unfold dequeAppend
  dsimp only
  rw [List.reverse_drop]
  have h : (l ++ [x]).reverse = x :: l.reverse := by simp
  have hm : (l ++ [x]).length - ((l ++ [x]).length - 64)
      = min 64 (x :: l.reverse).length := by
    simp only [List.length_append, List.length_cons, List.length_nil,
      List.length_reverse]
    omega
  rw [h, hm, ← List.take_take, List.take_length]

/-- Membership among the `j` most recently appended elements of the replay
window. -/
def recentMem (j x : Nat) (l : List Nat) : Prop := x ∈ l.reverse.take j

theorem recentMem_mem {j x : Nat} {l : List Nat} (h : recentMem j x l) : x ∈ l :=
  List.mem_reverse.mp (List.take_subset _ _ h)

theorem recentMem_mono {j j' x : Nat} {l : List Nat} (h : recentMem j x l)
    (hj : j ≤ j') : recentMem j' x l := by
  unfold recentMem at *
  have he : l.reverse.take j = (l.reverse.take j').take j := by
    rw [List.take_take, min_eq_left hj]
  rw [he] at h
  exact List.take_subset _ _ h

theorem recentMem_append {j x : Nat} {l : List Nat} (y : Nat)
    (h : recentMem j x l) (hj : j < 64) :
    recentMem (j + 1) x (dequeAppend 64 l y) := by
  unfold recentMem at *
  rw [dequeAppend_reverse, List.take_take, min_eq_left (by omega),
    List.take_succ_cons]
  exact List.mem_cons_of_mem _ h

theorem recentMem_self (l : List Nat) (x : Nat) :
    recentMem 1 x (dequeAppend 64 l x) := by
  unfold recentMem
  rw [dequeAppend_reverse, List.take_take, min_eq_left (by omega),
    List.take_succ_cons]
  exact List.mem_cons_self _ _

/-- The state-independent checks of `MTProto.read`: everything the read path
tests before consulting the replay window, in source order. -/
def framePasses (sha256 : Bytes → Bytes) (authKey authKeyId : Bytes)
    (sessionId : Nat) (f : InFrame) : Prop :=
  f.serverAuthKeyId ≠ corruptedSentinel ∧
  f.serverAuthKeyId ≠ floodSentinel ∧
  f.serverAuthKeyId = authKeyId ∧
  (12 ≤ f.padBytes.length ∧ f.padBytes.length < 1024) ∧
  f.msgKey = computedMsgKey sha256 authKey f ∧
  f.sessionId = sessionId ∧
  f.msgId % 2 = 1

theorem read_ok_analysis (sha256 : Bytes → Bytes) (authKey authKeyId : Bytes)
    (sessionId : Nat) (st : ConnState) (f : InFrame) (t r m : Nat)
    (h : (read sha256 authKey authKeyId sessionId st f t r).2 = .ok m) :
    framePasses sha256 authKey authKeyId sessionId f ∧
    f.msgId ∉ st.lastMsgIds ∧ m = f.msgId ∧
    (read sha256 authKey authKeyId sessionId st f t r).1 =
      ⟨(getMessageId t r st.lastMessageId).2, dequeAppend 64 st.lastMsgIds f.msgId⟩ := by
  unfold read at h ⊢
  dsimp only at h ⊢
  split at h
  · exact absurd h (by simp)
  · split at h
    · exact absurd h (by simp)
    · split at h
      · exact absurd h (by simp)
      · split at h
        · exact absurd h (by simp)
        · split at h
          · exact absurd h (by simp)
          · split at h
            · exact absurd h (by simp)
            · split at h
              · exact absurd h (by simp)
              · split at h
                · exact absurd h (by simp)
                · split at h
                  · exact absurd h (by simp)
                  · rename_i h1 h2 h3 h4 h5 h6 h7 h8 h9
                    rw [if_neg h1, if_neg h2, if_neg h3, if_neg h4, if_neg h5,
                      if_neg h6, if_neg h7, if_neg h8, if_neg h9]
                    simp only [Except.ok.injEq] at h
                    exact ⟨⟨h1, h2, not_not.mp h3, not_not.mp h4, not_not.mp h5,
                      not_not.mp h6, not_not.mp h7⟩, h8, h.symm, rfl⟩

theorem read_duplicated (sha256 : Bytes → Bytes) (authKey authKeyId : Bytes)
    (sessionId : Nat) (st : ConnState) (f : InFrame) (t r : Nat)
    (hp : framePasses sha256 authKey authKeyId sessionId f)
    (hmem : f.msgId ∈ st.lastMsgIds) :
    read sha256 authKey authKeyId sessionId st f t r = (st, .error .duplicated) := by
  obtain ⟨h1, h2, h3, h4, h5, h6, h7⟩ := hp
  unfold read
  rw [if_neg h1, if_neg h2, if_neg (not_not_intro h3), if_neg (not_not_intro h4),
    if_neg (not_not_intro h5), if_neg (not_not_intro h6),
    if_neg (not_not_intro h7), if_pos hmem]

theorem read_state_cases (sha256 : Bytes → Bytes) (authKey authKeyId : Bytes)
    (sessionId : Nat) (st : ConnState) (f : InFrame) (t r : Nat) :
    (read sha256 authKey authKeyId sessionId st f t r).1 = st ∨
    (read sha256 authKey authKeyId sessionId st f t r).1 =
      ⟨(getMessageId t r st.lastMessageId).2, dequeAppend 64 st.lastMsgIds f.msgId⟩ := by
  unfold read
  dsimp only
  split
  · exact Or.inl rfl
  · split
    · exact Or.inl rfl
    · split
      · exact Or.inl rfl
      · split
        · exact Or.inl rfl
        · split
          · exact Or.inl rfl
          · split
            · exact Or.inl rfl
            · split
              · exact Or.inl rfl
              · split
                · exact Or.inl rfl
                · split
                  · exact Or.inr rfl
                  · exact Or.inr rfl

theorem readMany_recent (sha256 : Bytes → Bytes) (authKey authKeyId : Bytes)
    (sessionId x : Nat) :
    ∀ (frs : List (InFrame × Nat × Nat)) (j : Nat) (st : ConnState),
      recentMem j x st.lastMsgIds → j + frs.length ≤ 64 →
      recentMem (j + frs.length) x
        (readMany sha256 authKey authKeyId sessionId st frs).lastMsgIds := by
  intro frs
  induction frs with
  | nil =>
    intro j st h _
    simpa [readMany] using h
  | cons fr frs ih =>
    intro j st h hle
    simp only [List.length_cons] at hle
    have h' : recentMem (j + 1) x
        (readStep sha256 authKey authKeyId sessionId st fr).lastMsgIds := by
      unfold readStep
      rcases read_state_cases sha256 authKey authKeyId sessionId st fr.1 fr.2.1
          fr.2.2 with hs | hs
      · rw [hs]
        exact recentMem_mono h (by omega)
      · rw [hs]
        exact recentMem_append _ h (by omega)
    have hidx : j + (fr :: frs).length = (j + 1) + frs.length := by
      simp only [List.length_cons]
      omega
    rw [hidx]
    exact ih (j + 1) _ h' (by omega)

/-- C4: if a valid encrypted frame is accepted by `MTProto.read` — the
accepted `msg_id` is appended to the replay window — then resubmitting the
same frame after at most 63 further reads fails with the "duplicated
message" error, and the replay deque never holds more than the 64 most
recent server msg_ids. -/
theorem replay_defense (sha256 : Bytes → Bytes) (authKey authKeyId : Bytes)
    (sessionId : Nat) (st st₁ : ConnState) (f : InFrame) (t r m : Nat)
    (h1 : read sha256 authKey authKeyId sessionId st f t r = (st₁, .ok m))
    (frs : List (InFrame × Nat × Nat)) (hfrs : frs.length ≤ 63) (t' r' : Nat) :
    st₁.lastMsgIds = dequeAppend 64 st.lastMsgIds f.msgId ∧
    read sha256 authKey authKeyId sessionId
        (readMany sha256 authKey authKeyId sessionId st₁ frs) f t' r' =
      ((readMany sha256 authKey authKeyId sessionId st₁ frs), .error .duplicated) ∧
    (st.lastMsgIds.length ≤ 64 → st₁.lastMsgIds.length ≤ 64) := by
  have hsnd : (read sha256 authKey authKeyId sessionId st f t r).2 = .ok m := by
    rw [h1]
  obtain ⟨hp, _, _, hfst⟩ := read_ok_analysis sha256 authKey authKeyId sessionId
    st f t r m hsnd
  rw [h1] at hfst
  dsimp only at hfst
  have hwin : st₁.lastMsgIds = dequeAppend 64 st.lastMsgIds f.msgId := by
    rw [hfst]
  have hrec : recentMem 1 f.msgId st₁.lastMsgIds := by
    rw [hwin]
    exact recentMem_self _ _
  have hmany := readMany_recent sha256 authKey authKeyId sessionId f.msgId frs 1
    st₁ hrec (by omega)
  refine ⟨hwin, read_duplicated _ _ _ _ _ _ _ _ hp (recentMem_mem hmany), ?_⟩
  intro _
  rw [hwin]
  exact dequeAppend_length _ _

/-- Witness for `replay_defense`: a concrete valid frame accepted once and
rejected as duplicated on immediate resubmission. -/
theorem replay_defense_witness :
    (⟨4, [1]⟩ : ConnState).lastMsgIds =
      dequeAppend 64 (⟨0, []⟩ : ConnState).lastMsgIds
        (InFrame.mk [1, 0, 0, 0, 0, 0, 0, 0] (List.replicate 16 0) []
          (List.replicate 12 0) 0 1 0).msgId ∧
    read shaC [] [1, 0, 0, 0, 0, 0, 0, 0] 0
        (readMany shaC [] [1, 0, 0, 0, 0, 0, 0, 0] 0 ⟨4, [1]⟩ [])
        (InFrame.mk [1, 0, 0, 0, 0, 0, 0, 0] (List.replicate 16 0) []
          (List.replicate 12 0) 0 1 0) 0 0 =
      ((readMany shaC [] [1, 0, 0, 0, 0, 0, 0, 0] 0 ⟨4, [1]⟩ []),
        .error .duplicated) ∧
    ((⟨0, []⟩ : ConnState).lastMsgIds.length ≤ 64 →
      (⟨4, [1]⟩ : ConnState).lastMsgIds.length ≤ 64) :=
  replay_defense shaC [] [1, 0, 0, 0, 0, 0, 0, 0] 0 ⟨0, []⟩ ⟨4, [1]⟩
    (InFrame.mk [1, 0, 0, 0, 0, 0, 0, 0] (List.replicate 16 0) []
      (List.replicate 12 0) 0 1 0) 0 0 1 rfl [] (by decide) 0 0

theorem read_wrong_padding_analysis (sha256 : Bytes → Bytes)
    (authKey authKeyId : Bytes) (sessionId : Nat) (st : ConnState) (f : InFrame)
    (t r : Nat)
    (h : (read sha256 authKey authKeyId sessionId st f t r).2 =
      .error .wrongPadding) :
    ¬ (12 ≤ f.padBytes.length ∧ f.padBytes.length < 1024) := by
  unfold read at h
  dsimp only at h
  split at h
  · exact ReadError.noConfusion (Except.error.inj h)
  · split at h
    · exact ReadError.noConfusion (Except.error.inj h)
    · split at h
      · exact ReadError.noConfusion (Except.error.inj h)
      · split at h
        · rename_i hbad
          exact hbad
        · split at h
          · exact ReadError.noConfusion (Except.error.inj h)
          · split at h
            · exact ReadError.noConfusion (Except.error.inj h)
            · split at h
              · exact ReadError.noConfusion (Except.error.inj h)
              · split at h
                · exact ReadError.noConfusion (Except.error.inj h)
                · split at h
                  · exact ReadError.noConfusion (Except.error.inj h)
                  · exact Except.noConfusion h

/-- C5: when the remaining plain buffer's length falls outside `[12, 1024)`
the read fails with the fatal "wrong padding length" error and the connection
state is returned unchanged — in particular the replay window is untouched;
a padding length inside `[12, 1024)` never raises that error. -/
theorem wrong_padding_no_mutation (sha256 : Bytes → Bytes)
    (authKey authKeyId : Bytes) (sessionId : Nat) (st : ConnState) (f : InFrame)
    (t r : Nat)
    (hs1 : f.serverAuthKeyId ≠ corruptedSentinel)
    (hs2 : f.serverAuthKeyId ≠ floodSentinel)
    (hs3 : f.serverAuthKeyId = authKeyId)
    (hbad : ¬ (12 ≤ f.padBytes.length ∧ f.padBytes.length < 1024)) :
    read sha256 authKey authKeyId sessionId st f t r = (st, .error .wrongPadding) ∧
    ∀ (st' : ConnState) (f' : InFrame) (t' r' : Nat),
      12 ≤ f'.padBytes.length → f'.padBytes.length < 1024 →
      (read sha256 authKey authKeyId sessionId st' f' t' r').2 ≠
        .error .wrongPadding := by
  constructor
  · unfold read
    rw [if_neg hs1, if_neg hs2, if_neg (not_not_intro hs3), if_pos hbad]
  · intro st' f' t' r' hp1 hp2 hx
    exact absurd ⟨hp1, hp2⟩
      (read_wrong_padding_analysis sha256 authKey authKeyId sessionId st' f'
        t' r' hx)

/-- Witness for `wrong_padding_no_mutation`: a frame carrying only 8 padding
bytes is rejected without touching the state. -/
theorem wrong_padding_no_mutation_witness :
    read shaC [] [1, 0, 0, 0, 0, 0, 0, 0] 0 ⟨0, []⟩
        (InFrame.mk [1, 0, 0, 0, 0, 0, 0, 0] (List.replicate 16 0) []
          (List.replicate 8 0) 0 1 0) 0 0 =
      ((⟨0, []⟩ : ConnState), .error .wrongPadding) ∧
    ∀ (st' : ConnState) (f' : InFrame) (t' r' : Nat),
      12 ≤ f'.padBytes.length → f'.padBytes.length < 1024 →
      (read shaC [] [1, 0, 0, 0, 0, 0, 0, 0] 0 st' f' t' r').2 ≠
        .error .wrongPadding :=
  wrong_padding_no_mutation shaC [] [1, 0, 0, 0, 0, 0, 0, 0] 0 ⟨0, []⟩
    (InFrame.mk [1, 0, 0, 0, 0, 0, 0, 0] (List.replicate 16 0) []
      (List.replicate 8 0) 0 1 0) 0 0 (by decide) (by decide) rfl (by decide)

/-- C9: every read that reaches the clock-synchronisation check — it then
either succeeds or fails with the clock error — has invoked
`_get_message_id`, strictly increasing the stored `_last_message_id` to the
freshly generated id, and the next `box_message` returns a strictly greater
`msg_id`. -/
theorem read_advances_clock (sha256 : Bytes → Bytes) (authKey authKeyId : Bytes)
    (sessionId : Nat) (st : ConnState) (f : InFrame) (t r : Nat)
    (st' : ConnState) (res : Except ReadError Nat)
    (hres : read sha256 authKey authKeyId sessionId st f t r = (st', res))
    (h : res = .error .clockUnsync ∨ ∃ m, res = .ok m) :
    st'.lastMessageId = (getMessageId t r st.lastMessageId).1 ∧
    st.lastMessageId < st'.lastMessageId ∧
    ∀ t' r', st'.lastMessageId < (boxMessage t' r' st').1 := by
  unfold read at hres
  dsimp only at hres
  split at hres
  · injection hres with hA hB
    subst hB
    exact h.elim (fun hh => ReadError.noConfusion (Except.error.inj hh)) (fun he => he.elim fun m hm => Except.noConfusion hm)
  · split at hres
    · injection hres with hA hB
      subst hB
      exact h.elim (fun hh => ReadError.noConfusion (Except.error.inj hh)) (fun he => he.elim fun m hm => Except.noConfusion hm)
    · split at hres
      · injection hres with hA hB
        subst hB
        exact h.elim (fun hh => ReadError.noConfusion (Except.error.inj hh)) (fun he => he.elim fun m hm => Except.noConfusion hm)
      · split at hres
        · injection hres with hA hB
          subst hB
          exact h.elim (fun hh => ReadError.noConfusion (Except.error.inj hh)) (fun he => he.elim fun m hm => Except.noConfusion hm)
        · split at hres
          · injection hres with hA hB
            subst hB
            exact h.elim (fun hh => ReadError.noConfusion (Except.error.inj hh)) (fun he => he.elim fun m hm => Except.noConfusion hm)
          · split at hres
            · injection hres with hA hB
              subst hB
              exact h.elim (fun hh => ReadError.noConfusion (Except.error.inj hh)) (fun he => he.elim fun m hm => Except.noConfusion hm)
            · split at hres
              · injection hres with hA hB
                subst hB
                exact h.elim (fun hh => ReadError.noConfusion (Except.error.inj hh)) (fun he => he.elim fun m hm => Except.noConfusion hm)
              · split at hres
                · injection hres with hA hB
                  subst hB
                  exact h.elim (fun hh => ReadError.noConfusion (Except.error.inj hh)) (fun he => he.elim fun m hm => Except.noConfusion hm)
                · split at hres <;>
                  · injection hres with hA hB
                    rw [← hA]
                    exact ⟨(getMessageId_fst_eq_snd t r st.lastMessageId).symm,
                      getMessageId_fst_eq_snd t r st.lastMessageId ▸
                        lt_getMessageId t r st.lastMessageId,
                      fun t' r' => lt_getMessageId t' r' _⟩

/-- Witness for `read_advances_clock` at a concrete accepted frame. -/
theorem read_advances_clock_witness :
    (⟨4, [1]⟩ : ConnState).lastMessageId =
      (getMessageId 0 0 (⟨0, []⟩ : ConnState).lastMessageId).1 ∧
    (⟨0, []⟩ : ConnState).lastMessageId <
      (⟨4, [1]⟩ : ConnState).lastMessageId ∧
    ∀ t' r',
      (⟨4, [1]⟩ : ConnState).lastMessageId <
        (boxMessage t' r' (⟨4, [1]⟩ : ConnState)).1 :=
  read_advances_clock shaC [] [1, 0, 0, 0, 0, 0, 0, 0] 0 ⟨0, []⟩
    (InFrame.mk [1, 0, 0, 0, 0, 0, 0, 0] (List.replicate 16 0) []
      (List.replicate 12 0) 0 1 0) 0 0 ⟨4, [1]⟩ (.ok 1) rfl (Or.inr ⟨1, rfl⟩)
/-- C8 counterexample: `AuthKey.__init__` stores the supplied `auth_key_id`
argument unchecked, so a state constructed with a key but no identifier has
`auth_key` set while `auth_key_id` is empty, violating the claimed
invariant. -/
theorem authkey_ctor_breaks_invariant :
    ¬ AuthKeyInv sha1C (authKeyInit (some [1]) none none none none) := by
  intro hinv
  have h := hinv.1 [1] rfl (by decide)
  exact Option.noConfusion h

/-- C8 amended: `_get_auth_key_id` is `SHA1(auth_key)[12..20]` (the last 8
bytes of the 20-byte digest), and the key/identifier invariant holds for the
default (empty) construction and is preserved or re-established by `clone`,
handshake completion, and `__setstate__` reload; only a constructor call
supplying an explicitly inconsistent `(auth_key, auth_key_id)` pair escapes
it. -/
theorem authkey_id_invariant (sha1 : Bytes → Bytes)
    (hlen : ∀ k, (sha1 k).length = 20) :
    (∀ k, getAuthKeyId sha1 k = ((sha1 k).drop 12).take 8) ∧
    (∀ sid salt sq, AuthKeyInv sha1 (authKeyInit none none sid salt sq)) ∧
    (∀ s sid, AuthKeyInv sha1 s → AuthKeyInv sha1 (authKeyClone s sid)) ∧
    (∀ s k salt sid, k ≠ [] →
      AuthKeyInv sha1 (handshakeComplete sha1 s k salt sid)) ∧
    (∀ state sid saltRand,
      AuthKeyInv sha1 (authKeySetstate sha1 state sid saltRand)) := by
  refine ⟨?_, ?_, ?_, ?_, ?_⟩
  · intro k
    unfold getAuthKeyId
    rw [hlen,
      List.take_of_length_le (show ((sha1 k).drop 12).length ≤ 8 by simp [hlen])]
  · intro sid salt sq
    exact ⟨fun k hk => Option.noConfusion hk, fun _ => rfl⟩
  · intro s sid hv
    exact ⟨fun k hk hne => hv.1 k hk hne, fun hk => hv.2 hk⟩
  · intro s k salt sid hkne
    refine ⟨fun k' hk' _ => ?_, fun hk => ?_⟩
    · cases Option.some.inj hk'
      rfl
    · rcases hk with hk | hk
      · exact Option.noConfusion hk
      · exact absurd (Option.some.inj hk) hkne
  · intro state sid saltRand
    rcases state with ⟨ak, salt⟩ | b
    · refine ⟨fun k hk hne => ?_, fun hk => ?_⟩
      · have hak : ak = some k := hk
        subst hak
        simp [authKeySetstate, hne]
      · rcases hk with hk | hk
        · have hak : ak = none := hk
          subst hak
          rfl
        · have hak : ak = some [] := hk
          subst hak
          rfl
    · refine ⟨fun k hk hne => ?_, fun hk => ?_⟩
      · have hb : b = k := Option.some.inj hk
        subst hb
        simp [authKeySetstate, hne]
      · rcases hk with hk | hk
        · exact Option.noConfusion hk
        · have hb : b = [] := Option.some.inj hk
          subst hb
          rfl

/-- Witness for `authkey_id_invariant` with the stand-in SHA1. -/
theorem authkey_id_invariant_witness :
    (∀ k, getAuthKeyId sha1C k = ((sha1C k).drop 12).take 8) ∧
    (∀ sid salt sq, AuthKeyInv sha1C (authKeyInit none none sid salt sq)) ∧
    (∀ s sid, AuthKeyInv sha1C s → AuthKeyInv sha1C (authKeyClone s sid)) ∧
    (∀ s k salt sid, k ≠ [] →
      AuthKeyInv sha1C (handshakeComplete sha1C s k salt sid)) ∧
    (∀ state sid saltRand,
      AuthKeyInv sha1C (authKeySetstate sha1C state sid saltRand)) :=
  authkey_id_invariant sha1C (fun _ => rfl)

end MtprotoSpec
